import Mathlib

/-!
Shallow embedding of `src/page_rank.py` (random-surfer and power-iteration
PageRank over a directed graph), with Python floats modelled as exact
rationals, Python dicts as association lists in key-insertion order, and
Python runtime errors (KeyError, ZeroDivisionError, ValueError) as
explicit error values.
-/

namespace PageRankPy

/-- An `nx.DiGraph`: the node list (in insertion order, as iterated by
`G.nodes()`) and the edge list. Node ids are integers in the reference
data; we embed them as `ℕ`. -/
structure DiGraph where
  nodes : List ℕ
  edges : List (ℕ × ℕ)
deriving DecidableEq

/-- `G.neighbors(u)`: out-neighbors of `u`, i.e. targets of edges with
source `u`. -/
def neighbors (G : DiGraph) (u : ℕ) : List ℕ :=
  (G.edges.filter (fun e => e.1 == u)).map Prod.snd

/-- `nx.reverse(G).neighbors(v)`: the predecessors (backlinks) of `v`,
i.e. sources of edges with target `v`. -/
def rneighbors (G : DiGraph) (v : ℕ) : List ℕ :=
  (G.edges.filter (fun e => e.2 == v)).map Prod.fst

/-- The §3 invariant: every edge endpoint is a node of the graph, and the
node list has no duplicates (it models a dict key set). -/
def WellFormed (G : DiGraph) : Prop :=
  (∀ e ∈ G.edges, e.1 ∈ G.nodes ∧ e.2 ∈ G.nodes) ∧ G.nodes.Nodup

/-- `find_dangling_nodes(G)`: collect the sources of all edges
(`nondangling_nodes`), then keep the nodes not in that set. -/
def find_dangling_nodes (G : DiGraph) : List ℕ :=
  let nondangling_nodes := G.edges.map Prod.fst
  G.nodes.filter (fun node => !(nondangling_nodes.contains node))

/-- Python dict lookup `x[k]`: `none` models a `KeyError`. -/
def lookup {α : Type} (k : ℕ) : List (ℕ × α) → Option α
  | [] => none
  | (a, b) :: ps => if a == k then some b else lookup k ps

/-- Update the value stored at key `k` in an association list (first
occurrence only, like a Python dict whose keys are unique); a no-op if
`k` is absent. Models `x[k] = v` for an existing key. -/
def setVal {α : Type} : List (ℕ × α) → ℕ → α → List (ℕ × α)
  | [], _, _ => []
  | p :: ps, k, v => if p.1 == k then (k, v) :: ps else p :: setVal ps k v

/-- One step of the stable insertion used to model Python
`sorted(..., key=lambda x: x[1], reverse=True)` (descending by value,
ties keep input order: an element is placed before every already-placed
element whose value is ≤ its own, and those came later in the input). -/
def insertDesc {β : Type} [LinearOrder β] (p : ℕ × β) :
    List (ℕ × β) → List (ℕ × β)
  | [] => [p]
  | q :: qs => if q.2 ≤ p.2 then p :: q :: qs else q :: insertDesc p qs

/-- `dict(sorted(x.items(), key=lambda x: x[1], reverse=True))`: a stable
descending-by-value sort of the dict items. -/
def rankSort {β : Type} [LinearOrder β] : List (ℕ × β) → List (ℕ × β)
  | [] => []
  | p :: ps => insertDesc p (rankSort ps)

/-- Python runtime errors that `page_rank` can raise: `ZeroDivisionError`
from `S = m * 1/size` on an empty graph, `ZeroDivisionError` from
`1/len([...neighbors of backlink...])` when a backlink has out-degree 0,
and `KeyError` from `x[backlink]` when a backlink is not a key of `x`. -/
inductive PRErr
  | emptyGraphDiv
  | backlinkZeroOutdeg
  | keyError
deriving DecidableEq

/-- `scores = [1/len([i for i in G.neighbors(backlink)]) for backlink in
backlinks]`: `none` models the `ZeroDivisionError` raised when some
backlink has no out-neighbors. -/
def backlinkScores (G : DiGraph) : List ℕ → Option (List ℚ)
  | [] => some []
  | bl :: rest =>
    let deg := (neighbors G bl).length
    if deg = 0 then none
    else
      match backlinkScores G rest with
      | none => none
      | some s => some ((1 / (deg : ℚ)) :: s)

/-- The accumulation loop `for i, backlink in enumerate(backlinks):
A += scores[i] * x[backlink]` over the zipped scores/backlinks; `none`
models the `KeyError` raised when a backlink is not a key of `x`. -/
def accumA (x : List (ℕ × ℚ)) : List (ℚ × ℕ) → Option ℚ
  | [] => some 0
  | (s, bl) :: rest =>
    match lookup bl x, accumA x rest with
    | some xb, some r => some (s * xb + r)
    | _, _ => none

/-- `sum(x[node]/size for node in dangling_nodes)`; `none` models a
`KeyError` on a dangling node missing from `x` (never happens, since
dangling nodes are drawn from `G.nodes()`). -/
def dangSum (x : List (ℕ × ℚ)) (size : ℚ) : List ℕ → Option ℚ
  | [] => some 0
  | d :: rest =>
    match lookup d x, dangSum x size rest with
    | some xd, some r => some (xd / size + r)
    | _, _ => none

/-- The inner loop `for node, score in x.items(): ... x[node] = A + D + S`,
iterating over the dict keys (in insertion order, i.e. `G.nodes`) and
updating `x` IN PLACE, so later nodes read scores already rewritten in
the same pass. -/
def prPass (G : DiGraph) (m D S : ℚ) :
    List ℕ → List (ℕ × ℚ) → Except PRErr (List (ℕ × ℚ))
  | [], x => .ok x
  | v :: rest, x =>
    match backlinkScores G (rneighbors G v) with
    | none => .error .backlinkZeroOutdeg
    | some scores =>
      match accumA x (scores.zip (rneighbors G v)) with
      | none => .error .keyError
      | some a => prPass G m D S rest (setVal x v ((1 - m) * a + D + S))

/-- The outer `for _ in range(n)` loop of `page_rank`: each iteration
recomputes `D = (1-m)*sum(x[node]/size for node in dangling_nodes)` from
the current `x` and then runs the in-place pass over all nodes. -/
def prIter (G : DiGraph) (m S size : ℚ) (dangling : List ℕ) :
    ℕ → List (ℕ × ℚ) → Except PRErr (List (ℕ × ℚ))
  | 0, x => .ok x
  | k + 1, x =>
    match dangSum x size dangling with
    | none => .error .keyError
    | some ds =>
      match prPass G m ((1 - m) * ds) S G.nodes x with
      | .error e => .error e
      | .ok x2 => prIter G m S size dangling k x2

/-- `page_rank(G, m, n=100)`: uniform initial scores `1/size`, teleport
term `S = m * 1/size`, `n` in-place update passes, and a final stable
descending sort of the score dict. On the empty graph, `S = m * 1/size`
raises `ZeroDivisionError` before the loop. -/
def page_rank (G : DiGraph) (m : ℚ) (n : ℕ) : Except PRErr (List (ℕ × ℚ)) :=
  let size := G.nodes.length
  if size = 0 then .error .emptyGraphDiv
  else
    let dangling := find_dangling_nodes G
    let x0 := G.nodes.map (fun node => (node, (1 : ℚ) / size))
    let S := m * (1 / size)
    match prIter G m S size dangling n x0 with
    | .error e => .error e
    | .ok x => .ok (rankSort x)

/-- Modelled from the spec: the per-node update of the pseudocode in §4.4,
computed simultaneously for all nodes from the snapshot of the previous
iteration `xOld` (double-buffered), writing a fresh score list. This is
the reference implementation the spec demands; it exists only to be
compared with the in-place `prPass` of the source. -/
def prPassRef (G : DiGraph) (m D S : ℚ) (xOld : List (ℕ × ℚ)) :
    List ℕ → Except PRErr (List (ℕ × ℚ))
  | [] => .ok []
  | v :: rest =>
    match backlinkScores G (rneighbors G v) with
    | none => .error .backlinkZeroOutdeg
    | some scores =>
      match accumA xOld (scores.zip (rneighbors G v)) with
      | none => .error .keyError
      | some a =>
        match prPassRef G m D S xOld rest with
        | .error e => .error e
        | .ok xs => .ok ((v, (1 - m) * a + D + S) :: xs)

/-- Modelled from the spec: the outer loop of §4.4 with double-buffered
(simultaneous) updates — `x ← x_new` only after the whole pass. -/
def prIterRef (G : DiGraph) (m S size : ℚ) (dangling : List ℕ) :
    ℕ → List (ℕ × ℚ) → Except PRErr (List (ℕ × ℚ))
  | 0, x => .ok x
  | k + 1, x =>
    match dangSum x size dangling with
    | none => .error .keyError
    | some ds =>
      match prPassRef G m ((1 - m) * ds) S x G.nodes with
      | .error e => .error e
      | .ok x2 => prIterRef G m S size dangling k x2

/-- Modelled from the spec: `page_rank` with the simultaneous
(double-buffered) update required by §4.4, otherwise identical setup. -/
def page_rank_ref (G : DiGraph) (m : ℚ) (n : ℕ) :
    Except PRErr (List (ℕ × ℚ)) :=
  let size := G.nodes.length
  if size = 0 then .error .emptyGraphDiv
  else
    let dangling := find_dangling_nodes G
    let x0 := G.nodes.map (fun node => (node, (1 : ℚ) / size))
    let S := m * (1 / size)
    match prIterRef G m S size dangling n x0 with
    | .error e => .error e
    | .ok x => .ok (rankSort x)

/-- The ambient random source: results of the successive
`random.randint`, `random.random` and `random.choice` calls, indexed by
per-kind call counters. -/
structure Rng where
  ints : ℕ → ℕ
  floats : ℕ → ℚ
  choices : ℕ → ℕ

/-- `random.randint(0, size-1)` (the source writes `nc = len(G)-1`): the
i-th integer draw, reduced into the range `[0, size)`. -/
def randNode (rng : Rng) (i size : ℕ) : ℕ := rng.ints i % size

/-- Python runtime errors `random_surfer` can raise: `ValueError` from
`random.randint(0, -1)` on an empty graph, and `KeyError` from
`visited[node] += 1` when the current integer is not a key. -/
inductive SurfErr
  | emptyRange
  | keyError
deriving DecidableEq

/-- The walk state: the visit-counter dict, the current node, and the
three RNG call counters. -/
structure SurfState where
  visited : List (ℕ × ℕ)
  node : ℕ
  i : ℕ
  f : ℕ
  c : ℕ

/-- The `for _ in range(n)` loop of `random_surfer`: increment the
counter of the current node (KeyError if absent), then teleport to
`random.randint(0, nc)` if the neighbor list is empty (the `or` is
short-circuit: no float is drawn) or if `random.random() < m`; otherwise
move to `random.choice(neighbors)`. -/
def surfSteps (G : DiGraph) (m : ℚ) (rng : Rng) (size : ℕ) :
    ℕ → SurfState → Except SurfErr SurfState
  | 0, st => .ok st
  | k + 1, st =>
    match lookup st.node st.visited with
    | none => .error .keyError
    | some cnt =>
      let visited := setVal st.visited st.node (cnt + 1)
      let nbrs := neighbors G st.node
      if nbrs.isEmpty then
        surfSteps G m rng size k
          ⟨visited, randNode rng st.i size, st.i + 1, st.f, st.c⟩
      else if rng.floats st.f < m then
        surfSteps G m rng size k
          ⟨visited, randNode rng st.i size, st.i + 1, st.f + 1, st.c⟩
      else
        surfSteps G m rng size k
          ⟨visited, nbrs.getD (rng.choices st.c % nbrs.length) 0,
            st.i, st.f + 1, st.c + 1⟩

/-- `random_surfer(G, n, m)`: counters for every node starting at 0,
a start "node" drawn as `random.randint(0, len(G)-1)` (an integer index,
whatever the actual node labels are), `n` walk steps, and a stable
descending sort of the counter dict. On an empty graph
`random.randint(0, -1)` raises `ValueError`. -/
def random_surfer (G : DiGraph) (n : ℕ) (m : ℚ) (rng : Rng) :
    Except SurfErr (List (ℕ × ℕ)) :=
  let visited := G.nodes.map (fun node => (node, 0))
  let size := G.nodes.length
  if size = 0 then .error .emptyRange
  else
    match surfSteps G m rng size n ⟨visited, randNode rng 0 size, 1, 0, 0⟩ with
    | .error e => .error e
    | .ok st => .ok (rankSort st.visited)

end PageRankPy

namespace PageRankPy

theorem mem_neighbors {G : DiGraph} {u v : ℕ} :
    v ∈ neighbors G u ↔ (u, v) ∈ G.edges := by
  simp only [neighbors, List.mem_map, List.mem_filter, beq_iff_eq]
  constructor
  · rintro ⟨⟨a, b⟩, ⟨hmem, hfst⟩, hsnd⟩
    simp_all
  · intro h
    exact ⟨(u, v), ⟨h, rfl⟩, rfl⟩

theorem mem_rneighbors {G : DiGraph} {u v : ℕ} :
    u ∈ rneighbors G v ↔ (u, v) ∈ G.edges := by
  simp only [rneighbors, List.mem_map, List.mem_filter, beq_iff_eq]
  constructor
  · rintro ⟨⟨a, b⟩, ⟨hmem, hsnd⟩, hfst⟩
    simp_all
  · intro h
    exact ⟨(u, v), ⟨h, rfl⟩, rfl⟩

theorem neighbors_eq_nil_iff {G : DiGraph} {u : ℕ} :
    neighbors G u = [] ↔ ∀ e ∈ G.edges, e.1 ≠ u := by
  simp only [neighbors, List.map_eq_nil_iff, List.filter_eq_nil_iff,
    beq_iff_eq]



theorem insertDesc_perm {β : Type} [LinearOrder β] (p : ℕ × β)
    (l : List (ℕ × β)) : (insertDesc p l).Perm (p :: l) := by
  induction l with
  | nil => simp [insertDesc]
  | cons q qs ih =>
    simp only [insertDesc]
    split_ifs
    · exact List.Perm.refl _
    · exact (ih.cons q).trans (List.Perm.swap p q qs)

theorem rankSort_perm {β : Type} [LinearOrder β] (l : List (ℕ × β)) :
    (rankSort l).Perm l := by
  induction l with
  | nil => simp [rankSort]
  | cons p ps ih =>
    exact (insertDesc_perm p (rankSort ps)).trans (ih.cons p)

theorem mem_insertDesc {β : Type} [LinearOrder β] {p q : ℕ × β}
    {l : List (ℕ × β)} : q ∈ insertDesc p l ↔ q = p ∨ q ∈ l := by
  have := (insertDesc_perm p l).mem_iff (a := q)
  simpa using this

theorem insertDesc_pairwise {β : Type} [LinearOrder β] {p : ℕ × β}
    {l : List (ℕ × β)} (h : l.Pairwise (fun a b => b.2 ≤ a.2)) :
    (insertDesc p l).Pairwise (fun a b => b.2 ≤ a.2) := by
  induction l with
  | nil => simp [insertDesc]
  | cons q qs ih =>
    rw [List.pairwise_cons] at h
    obtain ⟨hq, hqs⟩ := h
    simp only [insertDesc]
    split_ifs with hle
    · refine List.Pairwise.cons ?_ (List.Pairwise.cons hq hqs)
      intro r hr
      rcases List.mem_cons.mp hr with rfl | hr
      · exact hle
      · exact (hq r hr).trans hle
    · refine List.Pairwise.cons ?_ (ih hqs)
      intro r hr
      rcases mem_insertDesc.mp hr with rfl | hr
      · exact le_of_not_le hle
      · exact hq r hr

theorem rankSort_pairwise {β : Type} [LinearOrder β] (l : List (ℕ × β)) :
    (rankSort l).Pairwise (fun a b => b.2 ≤ a.2) := by
  induction l with
  | nil => simp [rankSort]
  | cons p ps ih => exact insertDesc_pairwise ih

theorem insertDesc_filter {β : Type} [LinearOrder β] (p : ℕ × β)
    (l : List (ℕ × β)) (s : β) :
    (insertDesc p l).filter (fun x => decide (x.2 = s)) =
      (p :: l).filter (fun x => decide (x.2 = s)) := by
  induction l with
  | nil => simp [insertDesc]
  | cons q qs ih =>
    simp only [insertDesc]
    split_ifs with hle
    · rfl
    · by_cases hq : q.2 = s
      · have hp : ¬ p.2 = s := by
          intro hp
          exact hle (by rw [hq, hp])
        simp [List.filter_cons, hq, hp, ih]
      · simp [List.filter_cons, hq, ih]

theorem rankSort_filter {β : Type} [LinearOrder β] (l : List (ℕ × β))
    (s : β) :
    (rankSort l).filter (fun x => decide (x.2 = s)) =
      l.filter (fun x => decide (x.2 = s)) := by
  induction l with
  | nil => simp [rankSort]
  | cons p ps ih =>
    rw [rankSort, insertDesc_filter, List.filter_cons, List.filter_cons, ih]

theorem setVal_map_fst {α : Type} (x : List (ℕ × α)) (k : ℕ) (v : α) :
    (setVal x k v).map Prod.fst = x.map Prod.fst := by
  induction x with
  | nil => rfl
  | cons p ps ih =>
    simp only [setVal]
    split_ifs with h
    · simp [beq_iff_eq.mp h]
    · simp [ih]

theorem lookup_setVal_sum {x : List (ℕ × ℕ)} {k c v : ℕ}
    (h : lookup k x = some c) :
    ((setVal x k v).map Prod.snd).sum + c = (x.map Prod.snd).sum + v := by
  induction x with
  | nil => simp [lookup] at h
  | cons p ps ih =>
    obtain ⟨a, b⟩ := p
    simp only [lookup, setVal] at h ⊢
    by_cases hk : (a == k) = true
    · rw [if_pos hk] at h
      injection h with h
      rw [if_pos hk]
      simp only [List.map_cons, List.sum_cons]
      omega
    · rw [if_neg hk] at h
      rw [if_neg hk]
      simp only [List.map_cons, List.sum_cons]
      have := ih h
      omega

theorem surfSteps_sum (G : DiGraph) (m : ℚ) (rng : Rng) (size : ℕ) :
    ∀ (k : ℕ) (st st2 : SurfState),
      surfSteps G m rng size k st = .ok st2 →
      (st2.visited.map Prod.snd).sum = (st.visited.map Prod.snd).sum + k := by
  intro k
  induction k with
  | zero =>
    intro st st2 h
    simp only [surfSteps] at h
    injection h with h
    rw [h]
    simp
  | succ k ih =>
    intro st st2 h
    simp only [surfSteps] at h
    split at h
    · exact absurd h (by simp)
    · rename_i cnt hl
      have hsum := lookup_setVal_sum (v := cnt + 1) hl
      split_ifs at h with h1 h2
      · have := ih _ _ h
        simp only [this]
        omega
      · have := ih _ _ h
        simp only [this]
        omega
      · have := ih _ _ h
        simp only [this]
        omega

theorem surfSteps_map_fst (G : DiGraph) (m : ℚ) (rng : Rng) (size : ℕ) :
    ∀ (k : ℕ) (st st2 : SurfState),
      surfSteps G m rng size k st = .ok st2 →
      st2.visited.map Prod.fst = st.visited.map Prod.fst := by
  intro k
  induction k with
  | zero =>
    intro st st2 h
    simp only [surfSteps] at h
    injection h with h
    rw [h]
  | succ k ih =>
    intro st st2 h
    simp only [surfSteps] at h
    split at h
    · exact absurd h (by simp)
    · split_ifs at h with h1 h2
      · rw [ih _ _ h]; exact setVal_map_fst _ _ _
      · rw [ih _ _ h]; exact setVal_map_fst _ _ _
      · rw [ih _ _ h]; exact setVal_map_fst _ _ _

theorem prPass_map_fst (G : DiGraph) (m D S : ℚ) :
    ∀ (l : List ℕ) (x x2 : List (ℕ × ℚ)),
      prPass G m D S l x = .ok x2 → x2.map Prod.fst = x.map Prod.fst := by
  intro l
  induction l with
  | nil =>
    intro x x2 h
    simp only [prPass] at h
    injection h with h
    rw [h]
  | cons v rest ih =>
    intro x x2 h
    simp only [prPass] at h
    split at h
    · exact absurd h (by simp)
    · split at h
      · exact absurd h (by simp)
      · rw [ih _ _ h, setVal_map_fst]

theorem prIter_map_fst (G : DiGraph) (m S size : ℚ) (dangling : List ℕ) :
    ∀ (n : ℕ) (x x2 : List (ℕ × ℚ)),
      prIter G m S size dangling n x = .ok x2 →
      x2.map Prod.fst = x.map Prod.fst := by
  intro n
  induction n with
  | zero =>
    intro x x2 h
    simp only [prIter] at h
    injection h with h
    rw [h]
  | succ k ih =>
    intro x x2 h
    simp only [prIter] at h
    split at h
    · exact absurd h (by simp)
    · split at h
      · exact absurd h (by simp)
      · rename_i xmid hp
        rw [ih _ _ h, prPass_map_fst _ _ _ _ _ _ _ hp]

theorem backlinkScores_isSome_of_deg (G : DiGraph) :
    ∀ l : List ℕ, (∀ bl ∈ l, (neighbors G bl).length ≠ 0) →
      (backlinkScores G l).isSome := by
  intro l
  induction l with
  | nil => intro _; simp [backlinkScores]
  | cons bl rest ih =>
    intro hdeg
    simp only [backlinkScores]
    rw [if_neg (hdeg bl (by simp))]
    have hrest := ih (fun b hb => hdeg b (List.mem_cons_of_mem _ hb))
    cases hbs : backlinkScores G rest with
    | none => rw [hbs] at hrest; simp at hrest
    | some s => simp [hbs]

theorem backlinkScores_rneighbors_isSome (G : DiGraph) (v : ℕ) :
    (backlinkScores G (rneighbors G v)).isSome := by
  refine backlinkScores_isSome_of_deg G _ (fun bl hbl hlen => ?_)
  have hedge : (bl, v) ∈ G.edges := mem_rneighbors.mp hbl
  have hv : v ∈ neighbors G bl := mem_neighbors.mpr hedge
  rw [List.length_eq_zero] at hlen
  rw [hlen] at hv
  exact absurd hv (List.not_mem_nil v)

theorem prPass_ne_backlinkErr (G : DiGraph) (m D S : ℚ) :
    ∀ (l : List ℕ) (x : List (ℕ × ℚ)),
      prPass G m D S l x ≠ .error .backlinkZeroOutdeg := by
  intro l
  induction l with
  | nil => intro x h; simp [prPass] at h
  | cons v rest ih =>
    intro x h
    simp only [prPass] at h
    split at h
    · rename_i hbs
      have hs := backlinkScores_rneighbors_isSome G v
      rw [hbs] at hs
      simp at hs
    · split at h
      · simp at h
      · exact ih _ h

theorem prIter_ne_backlinkErr (G : DiGraph) (m S size : ℚ)
    (dangling : List ℕ) :
    ∀ (n : ℕ) (x : List (ℕ × ℚ)),
      prIter G m S size dangling n x ≠ .error .backlinkZeroOutdeg := by
  intro n
  induction n with
  | zero => intro x h; simp [prIter] at h
  | succ k ih =>
    intro x h
    simp only [prIter] at h
    split at h
    · simp at h
    · split at h
      · rename_i e hp
        injection h with h
        subst h
        exact prPass_ne_backlinkErr G m _ S G.nodes x hp
      · exact ih _ h

theorem prIter_single (v : ℕ) (m : ℚ) :
    ∀ n : ℕ, prIter ⟨[v], []⟩ m m 1 [v] n [(v, 1)] = .ok [(v, 1)] := by
  intro n
  induction n with
  | zero => rfl
  | succ k ih =>
    simp only [prIter]
    norm_num [dangSum, lookup, prPass, backlinkScores, accumA, rneighbors,
      neighbors, setVal]
    ring_nf
    exact ih

end PageRankPy

open PageRankPy

/-- C1: the `page_rank` of the source updates the score dict IN PLACE inside one
pass (`x[node] = A + D + S` while later nodes still read `x[backlink]`),
so it is a Gauss–Seidel sweep, not the simultaneous (Jacobi) update the
claim requires; on the two-node graph 1→2 with m=0, n=1 the code yields
{2: 1/2, 1: 1/4} while a double-buffered reference yields {2: 3/4,
1: 1/4}, so the results differ. -/
theorem c1_inplace_update_differs_from_simultaneous :
    page_rank ⟨[1, 2], [(1, 2)]⟩ 0 1 = .ok [(2, 1/2), (1, 1/4)] ∧
    page_rank_ref ⟨[1, 2], [(1, 2)]⟩ 0 1 = .ok [(2, 3/4), (1, 1/4)] ∧
    page_rank ⟨[1, 2], [(1, 2)]⟩ 0 1 ≠
      page_rank_ref ⟨[1, 2], [(1, 2)]⟩ 0 1 := by
  have h1 : page_rank ⟨[1, 2], [(1, 2)]⟩ 0 1 = .ok [(2, 1/2), (1, 1/4)] := by
    norm_num [page_rank, prIter, prPass, dangSum, backlinkScores, accumA,
      find_dangling_nodes, neighbors, rneighbors, setVal, rankSort,
      insertDesc, lookup]
  have h2 : page_rank_ref ⟨[1, 2], [(1, 2)]⟩ 0 1 =
      .ok [(2, 3/4), (1, 1/4)] := by
    norm_num [page_rank_ref, prIterRef, prPassRef, dangSum, backlinkScores,
      accumA, find_dangling_nodes, neighbors, rneighbors, setVal, rankSort,
      insertDesc, lookup]
  refine ⟨h1, h2, ?_⟩
  rw [h1, h2]
  norm_num

/-- C2: probability mass is NOT conserved: on the two-node graph 1→2 with
the valid damping factor m=0 and n=1 iteration, the scores returned by
`page_rank` sum to 3/4, not ≈ 1 (the in-place update loses the mass that
node 2 should have received from the pre-update score of node 1). -/
theorem c2_mass_not_conserved :
    (page_rank ⟨[1, 2], [(1, 2)]⟩ 0 1).toOption.map
      (fun x => (x.map Prod.snd).sum) = some (3/4) ∧ (3 : ℚ)/4 ≠ 1 := by
  have h1 : page_rank ⟨[1, 2], [(1, 2)]⟩ 0 1 = .ok [(2, 1/2), (1, 1/4)] := by
    norm_num [page_rank, prIter, prPass, dangSum, backlinkScores, accumA,
      find_dangling_nodes, neighbors, rneighbors, setVal, rankSort,
      insertDesc, lookup]
  rw [h1]
  norm_num [Except.toOption]

/-- C3: `random_surfer` draws its start point as
`random.randint(0, len(G)-1)` — a uniform integer INDEX, not a uniform
node of `G`; on the single-node graph whose node is labeled 1 (not 0),
every possible random draw yields the integer 0, which is not a node, and
the run crashes with a KeyError instead of counting visits. -/
theorem c3_start_index_not_a_node (rng : PageRankPy.Rng) :
    random_surfer ⟨[1], []⟩ 1 0 rng = .error .keyError := by
  simp [random_surfer, surfSteps, randNode, Nat.mod_one, lookup]

/-- C4: whenever `random_surfer(G, n, m)` returns a counter mapping, the
sum of the counters is exactly `n`: each of the `n` loop iterations
increments exactly one existing counter, and the returned counts are the
raw (unnormalized) naturals. -/
theorem c4_counter_sum_eq_n (G : PageRankPy.DiGraph) (n : ℕ) (m : ℚ)
    (rng : PageRankPy.Rng) (vis : List (ℕ × ℕ))
    (h : random_surfer G n m rng = .ok vis) :
    (vis.map Prod.snd).sum = n := by
  simp only [random_surfer] at h
  split at h
  · simp at h
  · split at h
    · simp at h
    · rename_i st hs
      injection h with h
      subst h
      have hperm := ((rankSort_perm st.visited).map Prod.snd).sum_eq
      rw [hperm, surfSteps_sum G m rng G.nodes.length n _ st hs]
      simp [List.sum_eq_zero_iff]

/-- C4 witness: on the one-node graph with node 0, three steps of the
all-zeros random source produce the counter list [(0, 3)], whose counter
sum is 3. -/
theorem c4_counter_sum_eq_n_witness :
    (([((0:ℕ), (3:ℕ))]).map Prod.snd).sum = 3 :=
  c4_counter_sum_eq_n ⟨[0], []⟩ 3 0 ⟨fun _ => 0, fun _ => 0, fun _ => 0⟩
    [(0, 3)] (by norm_num [random_surfer, surfSteps, randNode, neighbors,
      setVal, rankSort, insertDesc, lookup])

/-- C5 counterexample: neither function rejects invalid parameters.
`page_rank` with the out-of-range damping factor m=2 returns a normal
result, `page_rank` with the invalid iteration count n=0 returns the
initial uniform scores, and `random_surfer` with n=0 and m=2 returns the
zero counters — all without any error. -/
theorem c5_no_validation_counterexample :
    page_rank ⟨[1], []⟩ 2 1 = .ok [(1, 1)] ∧
    page_rank ⟨[1], []⟩ (1/2) 0 = .ok [(1, 1)] ∧
    random_surfer ⟨[0], []⟩ 0 2 ⟨fun _ => 0, fun _ => 0, fun _ => 0⟩ =
      .ok [(0, 0)] := by
  refine ⟨?_, ?_, ?_⟩
  · norm_num [page_rank, prIter, prPass, dangSum, backlinkScores, accumA,
      find_dangling_nodes, neighbors, rneighbors, setVal, rankSort,
      insertDesc, lookup]
  · norm_num [page_rank, prIter, rankSort, insertDesc, find_dangling_nodes]
  · norm_num [random_surfer, surfSteps, randNode, rankSort, insertDesc]

/-- C5 amended: `random_surfer` and `page_rank` perform no parameter
validation at all: for ANY damping factor m (including values outside
[0,1]) and the invalid iteration count n=0 (`range(n)` for n ≤ 0 runs
zero iterations), both return a normal full result on any nonempty
graph — `page_rank` the sorted initial uniform scores, `random_surfer`
the sorted zero counters — with no error raised. -/
theorem c5_no_validation_amended (G : PageRankPy.DiGraph) (m : ℚ)
    (rng : PageRankPy.Rng) (h : G.nodes ≠ []) :
    page_rank G m 0 =
      .ok (rankSort (G.nodes.map
        (fun node => (node, (1:ℚ)/G.nodes.length)))) ∧
    random_surfer G 0 m rng =
      .ok (rankSort (G.nodes.map (fun node => (node, (0:ℕ))))) := by
  have hsz : ¬ G.nodes.length = 0 := by
    simpa [List.length_eq_zero] using h
  constructor
  · simp only [page_rank, prIter]
    rw [if_neg hsz]
  · simp only [random_surfer, surfSteps]
    rw [if_neg hsz]

/-- C5 amended witness: on the one-node graph with node 5, `page_rank`
with m=7, n=0 and `random_surfer` with n=0, m=7 both return normally. -/
theorem c5_no_validation_amended_witness :
    page_rank ⟨[5], []⟩ 7 0 =
      .ok (rankSort ((⟨[5], []⟩ : DiGraph).nodes.map
        (fun node => (node, (1:ℚ)/(⟨[5], []⟩ : DiGraph).nodes.length)))) ∧
    random_surfer ⟨[5], []⟩ 0 7 ⟨fun _ => 0, fun _ => 0, fun _ => 0⟩ =
      .ok (rankSort ((⟨[5], []⟩ : DiGraph).nodes.map
        (fun node => (node, (0:ℕ))))) :=
  c5_no_validation_amended ⟨[5], []⟩ 7 ⟨fun _ => 0, fun _ => 0, fun _ => 0⟩
    (by simp)

/-- C6: `find_dangling_nodes(G)` returns exactly the nodes of `G` with
out-degree 0: a node is in the result iff it is a node of `G` with no
outgoing edge (equivalently, it is never the source of an edge). -/
theorem c6_dangling_iff (G : PageRankPy.DiGraph) (v : ℕ) :
    v ∈ PageRankPy.find_dangling_nodes G ↔
      v ∈ G.nodes ∧ PageRankPy.neighbors G v = [] := by
  simp only [PageRankPy.find_dangling_nodes, List.mem_filter,
    PageRankPy.neighbors_eq_nil_iff, Bool.not_eq_eq_eq_not, Bool.not_true,
    List.contains_eq_any_beq, List.any_eq_false, beq_eq_false_iff_ne,
    ne_eq, List.mem_map, not_exists, not_and]
  constructor
  · rintro ⟨hv, h⟩
    exact ⟨hv, fun e he hev => h e.1 ⟨e, he, rfl⟩ (by simp [hev])⟩
  · rintro ⟨hv, h⟩
    refine ⟨hv, fun a ha hva => ?_⟩
    obtain ⟨e, he, hfst⟩ := ha
    exact h e he (hfst.trans (beq_iff_eq.mp hva).symm)

/-- C7: on the single-node graph with no edges (any node label `v`),
`page_rank` returns score exactly 1 for that node for every damping
factor m and every iteration count n: the node is the only node and is
dangling, so each pass computes (1-m)·x(v) + m·(1/1) = 1. Proved for all
m and all n, which subsumes the claimed m ∈ [0,1], n ≥ 1. -/
theorem c7_single_node_score_one (v : ℕ) (m : ℚ) (n : ℕ) :
    page_rank ⟨[v], []⟩ m n = .ok [(v, 1)] := by
  have h := prIter_single v m n
  simp only [page_rank]
  norm_num [find_dangling_nodes]
  rw [h]
  simp [rankSort, insertDesc]

/-- C8: every backlink found through the reverse graph is the source of a
real edge, so its out-degree is at least 1, and `page_rank` can never
fail with the zero-out-degree division error, on any graph whatsoever
(the divide-by-zero branch is unreachable; the model fails with the
explicit `backlinkZeroOutdeg` error, never a silent NaN/Inf, if it were
ever hit). -/
theorem c8_backlink_division_safe (G : PageRankPy.DiGraph) (m : ℚ) (n : ℕ)
    (v u : ℕ) :
    (u ∈ rneighbors G v → 1 ≤ (neighbors G u).length) ∧
    page_rank G m n ≠ .error .backlinkZeroOutdeg := by
  constructor
  · intro hu
    have hv : v ∈ neighbors G u := mem_neighbors.mpr (mem_rneighbors.mp hu)
    exact List.length_pos.mpr (List.ne_nil_of_mem hv)
  · intro h
    simp only [page_rank] at h
    split at h
    · simp at h
    · split at h
      · rename_i e hp
        injection h with h
        subst h
        exact prIter_ne_backlinkErr G m _ _ _ n _ hp
      · simp at h

/-- C8 witness: in the graph 1→2, node 1 is a backlink of node 2 and has
out-degree 1 ≥ 1, and `page_rank` does not fail with the
zero-out-degree error. -/
theorem c8_backlink_division_safe_witness :
    1 ≤ (neighbors ⟨[1, 2], [(1, 2)]⟩ 1).length ∧
    page_rank ⟨[1, 2], [(1, 2)]⟩ 0 1 ≠ .error .backlinkZeroOutdeg := by
  have h := c8_backlink_division_safe ⟨[1, 2], [(1, 2)]⟩ 0 1 2 1
  exact ⟨h.1 (by decide), h.2⟩

/-- C9: the shared ranking step (the `dict(sorted(..., key=lambda x: x[1],
reverse=True))` applied by both `random_surfer` and `page_rank`) lists
entries in descending score order, keeps entries with exactly equal
scores in their original input order (the filter of the output at any
fixed score equals the filter of the input), and on
{a:0.5, b:0.5, c:0.2} yields a, then b, then c. -/
theorem c9_rank_descending_stable :
    (∀ xs : List (ℕ × ℚ), (rankSort xs).Pairwise (fun p q => q.2 ≤ p.2)) ∧
    (∀ (xs : List (ℕ × ℚ)) (s : ℚ),
      (rankSort xs).filter (fun p => decide (p.2 = s)) =
        xs.filter (fun p => decide (p.2 = s))) ∧
    rankSort [(10, (1:ℚ)/2), (20, 1/2), (30, 1/5)] =
      [(10, 1/2), (20, 1/2), (30, 1/5)] := by
  refine ⟨fun xs => rankSort_pairwise xs, fun xs s => rankSort_filter xs s,
    ?_⟩
  norm_num [rankSort, insertDesc]

/-- C10: whenever `page_rank` or `random_surfer` returns a mapping, its
key list is a permutation of `G.nodes` — every node of G appears exactly
once (with counter 0 or a score even if unvisited/backlink-free) and no
other key is ever added. -/
theorem c10_result_keys_are_nodes (G : PageRankPy.DiGraph) (m : ℚ)
    (n k : ℕ) (rng : PageRankPy.Rng) (res : List (ℕ × ℚ))
    (cnts : List (ℕ × ℕ)) :
    (page_rank G m n = .ok res → (res.map Prod.fst).Perm G.nodes) ∧
    (random_surfer G k m rng = .ok cnts →
      (cnts.map Prod.fst).Perm G.nodes) := by
  constructor
  · intro h
    simp only [page_rank] at h
    split at h
    · simp at h
    · split at h
      · simp at h
      · rename_i x hx
        injection h with h
        subst h
        have hperm := (rankSort_perm x).map Prod.fst
        rw [prIter_map_fst G m _ _ _ n _ x hx] at hperm
        simpa [List.map_map, Function.comp_def] using hperm
  · intro h
    simp only [random_surfer] at h
    split at h
    · simp at h
    · split at h
      · simp at h
      · rename_i st hs
        injection h with h
        subst h
        have hperm := (rankSort_perm st.visited).map Prod.fst
        rw [surfSteps_map_fst G m rng G.nodes.length k _ st hs] at hperm
        simpa [List.map_map, Function.comp_def] using hperm

/-- C10 witness: on the one-node graph with node 0, both algorithms
return a mapping whose key list is a permutation of the node list. -/
theorem c10_result_keys_are_nodes_witness :
    (([((0:ℕ), (1:ℚ))]).map Prod.fst).Perm [0] ∧
    (([((0:ℕ), (1:ℕ))]).map Prod.fst).Perm [0] := by
  have h := c10_result_keys_are_nodes ⟨[0], []⟩ 0 1 1
    ⟨fun _ => 0, fun _ => 0, fun _ => 0⟩ [(0, 1)] [(0, 1)]
  refine ⟨h.1 ?_, h.2 ?_⟩
  · norm_num [page_rank, prIter, prPass, dangSum, backlinkScores, accumA,
      find_dangling_nodes, neighbors, rneighbors, setVal, rankSort,
      insertDesc, lookup]
  · norm_num [random_surfer, surfSteps, randNode, neighbors, setVal,
      rankSort, insertDesc, lookup]
